import Mathlib

/-!
# Pad foundation sizing tool — shallow embedding

This file embeds the sizing core of `pad_app_1_2.py` (the `solve_pad`
iterative width refinement, the `round_up` helper, and the per-pad
post-processing that rounds the converged width and recomputes loads,
bearing pressure and utilisation for the rounded geometry) as Lean
definitions over `ℝ`, and proves/refutes the specification's claims
about it.

The Python `while True` loop is embedded as a fuel-indexed recursion
`solveLoop`: `none` means the loop has not terminated within the given
fuel, so `(∀ fuel, … = none)` states genuine non-termination.
-/

namespace PadFoundation

/-- Concrete unit weight γc (kN/m³), constant `GAMMA_CONC` of the source. -/
noncomputable def GAMMA_CONC : ℝ := 24.0

/-- Partial factor for permanent actions, constant `gamma_G` of the source. -/
noncomputable def gamma_G : ℝ := 1.0

/-- Partial factor for variable actions, constant `gamma_Q` of the source. -/
noncomputable def gamma_Q : ℝ := 1.0

/-- Width refinement step (m), constant `B_REFINE_STEP` of the source. -/
noncomputable def B_REFINE_STEP : ℝ := 0.01

/-- `round_up(value, inc) = math.ceil(value / inc) * inc` from the source. -/
noncomputable def round_up (value inc : ℝ) : ℝ := ⌈value / inc⌉ * inc

/-- `round_down(value, inc) = math.floor(value / inc) * inc` from the source. -/
noncomputable def round_down (value inc : ℝ) : ℝ := ⌊value / inc⌋ * inc

/-- The design axial load computed by one iteration of the `solve_pad`
loop body (source lines 185–198): `t = 0.5 * B`, area-proportional
surcharges, self-weight `B² · t · γc` when enabled, and
`N_ck = γG·(G + W_pad + N_ck_sur_G) + γQ·(Q + N_ck_sur_Q)`. -/
noncomputable def loop_N_ck (G Q Sur_G Sur_Q : ℝ) (include_self_weight : Bool)
    (B : ℝ) : ℝ :=
  let t := 0.5 * B
  let N_ck_sur_G := Sur_G * B ^ 2
  let N_ck_sur_Q := Sur_Q * B ^ 2
  let W_pad := if include_self_weight then B ^ 2 * t * GAMMA_CONC else 0.0
  gamma_G * (G + W_pad + N_ck_sur_G) + gamma_Q * (Q + N_ck_sur_Q)

/-- Bearing pressure `q_ed = N_ck / B**2` of the loop body (source line 201). -/
noncomputable def loop_q_ed (G Q Sur_G Sur_Q : ℝ) (include_self_weight : Bool)
    (B : ℝ) : ℝ :=
  loop_N_ck G Q Sur_G Sur_Q include_self_weight B / B ^ 2

/-- Utilisation `util = q_ed / q_allow` of the loop body (source line 202). -/
noncomputable def loop_util (G Q Sur_G Sur_Q q_allow : ℝ)
    (include_self_weight : Bool) (B : ℝ) : ℝ :=
  loop_q_ed G Q Sur_G Sur_Q include_self_weight B / q_allow

/-- The `while True` refinement loop of `solve_pad` (source lines 183–207),
embedded with a fuel parameter: while `util > target_utilisation` the
width is increased by `B_REFINE_STEP`; on exit the current width is
returned.  `none` means the fuel ran out before the loop exited. -/
noncomputable def solveLoop (G Q Sur_G Sur_Q q_allow target_utilisation : ℝ)
    (include_self_weight : Bool) : ℕ → ℝ → Option ℝ
  | 0, _ => none
  | fuel + 1, B =>
      if target_utilisation <
          loop_util G Q Sur_G Sur_Q q_allow include_self_weight B then
        solveLoop G Q Sur_G Sur_Q q_allow target_utilisation
          include_self_weight fuel (B + B_REFINE_STEP)
      else
        some B

/-- The record returned by `solve_pad` (source lines 212–217). -/
structure SolveResult where
  B_opt : ℝ
  t : ℝ
  N_ck_initial : ℝ
  q_target : ℝ

/-- `solve_pad` (source lines 154–217): base load `N_ck_initial = γG·G + γQ·Q`,
target pressure `q_target = target_utilisation · q_allow`, seed width
`B = max(√(N_ck_initial / q_target), min_width)`, then the refinement
loop.  The `min_depth` and `rounding` parameters are accepted but unused,
exactly as in the source ("kept for interface consistency"). -/
noncomputable def solve_pad (G Q Sur_G Sur_Q q_allow target_utilisation
    min_width min_depth rounding : ℝ) (include_self_weight : Bool)
    (fuel : ℕ) : Option SolveResult :=
  let N_ck_initial := gamma_G * G + gamma_Q * Q
  let q_target := target_utilisation * q_allow
  let A_req := N_ck_initial / q_target
  let B0 := max (Real.sqrt A_req) min_width
  (solveLoop G Q Sur_G Sur_Q q_allow target_utilisation include_self_weight
      fuel B0).map fun B =>
    { B_opt := B
      t := 0.5 * B
      N_ck_initial := N_ck_initial
      q_target := q_target }

/-- The per-pad results record assembled after rounding (source lines 284–290). -/
structure PadOutcome where
  B_final : ℝ
  t_round : ℝ
  q_ed : ℝ
  utilisation : ℝ
  N_ck : ℝ
  volume : ℝ

/-- The post-processing applied to the converged continuous width
(source lines 255–290): round the width up, re-derive the depth as
`t_round = 0.5 * B_final`, recompute self-weight, surcharges, the final
axial load `N_ck_final`, the bearing pressure, the utilisation and the
concrete volume at the rounded geometry. -/
noncomputable def postprocess (G Q Sur_G Sur_Q q_allow rounding : ℝ)
    (include_self_weight : Bool) (B_opt : ℝ) : PadOutcome :=
  let B_final := round_up B_opt rounding
  let t_round := 0.5 * B_final
  let W_pad := if include_self_weight then B_final ^ 2 * t_round * GAMMA_CONC
    else 0.0
  let N_ck_sur_G := Sur_G * B_final ^ 2
  let N_ck_sur_Q := Sur_Q * B_final ^ 2
  let N_ck_final := gamma_G * (G + W_pad + N_ck_sur_G)
    + gamma_Q * (Q + N_ck_sur_Q)
  let q_ed := N_ck_final / B_final ^ 2
  let utilisation := q_ed / q_allow
  let volume := B_final ^ 2 * t_round
  { B_final := B_final
    t_round := t_round
    q_ed := q_ed
    utilisation := utilisation
    N_ck := N_ck_final
    volume := volume }

/-- The whole per-pad sizing pipeline of the calculation column (source
lines 231–290): solve for the continuous width, then post-process it. -/
noncomputable def size (G Q Sur_G Sur_Q q_allow target_utilisation
    min_width min_depth rounding : ℝ) (include_self_weight : Bool)
    (fuel : ℕ) : Option PadOutcome :=
  (solve_pad G Q Sur_G Sur_Q q_allow target_utilisation min_width min_depth
      rounding include_self_weight fuel).map fun res =>
    postprocess G Q Sur_G Sur_Q q_allow rounding include_self_weight res.B_opt

/-! ## Basic lemmas about the loop -/

/-- Algebraic form of the loop utilisation at a nonzero width: the base
load spread over the area, plus a self-weight contribution `12·B` (from
`W_pad / B² = B²·(B/2)·24 / B²`), plus the surcharge pressures, all
divided by the allowable pressure. -/
theorem loop_util_eq (G Q Sur_G Sur_Q q_allow : ℝ) (isw : Bool) (B : ℝ)
    (hB : B ≠ 0) :
    loop_util G Q Sur_G Sur_Q q_allow isw B =
      ((G + Q) / B ^ 2 + (if isw then 12 * B else 0) + (Sur_G + Sur_Q))
        / q_allow := by
  cases isw <;>
    simp only [loop_util, loop_q_ed, loop_N_ck, gamma_G, gamma_Q, GAMMA_CONC,
      if_true, if_false, Bool.false_eq_true, ite_true, ite_false] <;>
    (congr 1; field_simp; ring)

/-- Characterization of a terminating run of the refinement loop: the
result is `B + k` steps for the least `k` at which the utilisation drops
to the target or below. -/
theorem solveLoop_eq_some (G Q Sur_G Sur_Q q_allow u : ℝ) (isw : Bool) :
    ∀ (fuel : ℕ) (B c : ℝ),
      solveLoop G Q Sur_G Sur_Q q_allow u isw fuel B = some c →
      ∃ k : ℕ, c = B + k * B_REFINE_STEP ∧
        loop_util G Q Sur_G Sur_Q q_allow isw c ≤ u ∧
        ∀ j : ℕ, j < k →
          u < loop_util G Q Sur_G Sur_Q q_allow isw (B + j * B_REFINE_STEP) := by
  intro fuel
  induction fuel with
  | zero => intro B c h; simp [solveLoop] at h
  | succ n ih =>
      intro B c h
      rw [solveLoop] at h
      by_cases hb : u < loop_util G Q Sur_G Sur_Q q_allow isw B
      · rw [if_pos hb] at h
        obtain ⟨k, hc, hle, hgt⟩ := ih (B + B_REFINE_STEP) c h
        refine ⟨k + 1, ?_, hle, ?_⟩
        · rw [hc]; push_cast; ring
        · intro j hj
          cases j with
          | zero => simpa using hb
          | succ i =>
              have := hgt i (by omega)
              have harg : B + B_REFINE_STEP + (i : ℝ) * B_REFINE_STEP =
                  B + ((i : ℕ) + 1 : ℕ) * B_REFINE_STEP := by push_cast; ring
              rw [harg] at this
              simpa using this
      · rw [if_neg hb] at h
        obtain rfl : B = c := by simpa using h
        exact ⟨0, by simp, not_lt.mp hb, by simp⟩

/-- The seed width of `solve_pad` (source line 177):
`B = max(math.sqrt(A_req), min_width)` with `A_req = N_ck_initial / q_target`. -/
noncomputable def seedWidth (G Q q_allow target_utilisation min_width : ℝ) : ℝ :=
  max (Real.sqrt ((gamma_G * G + gamma_Q * Q) / (target_utilisation * q_allow)))
    min_width

/-- `solve_pad` unfolded through `seedWidth`. -/
theorem solve_pad_eq (G Q Sur_G Sur_Q q_allow u mw md r : ℝ) (isw : Bool)
    (fuel : ℕ) :
    solve_pad G Q Sur_G Sur_Q q_allow u mw md r isw fuel =
      (solveLoop G Q Sur_G Sur_Q q_allow u isw fuel
          (seedWidth G Q q_allow u mw)).map fun B =>
        { B_opt := B
          t := 0.5 * B
          N_ck_initial := gamma_G * G + gamma_Q * Q
          q_target := u * q_allow } := rfl

theorem seedWidth_ge_min (G Q q_allow u mw : ℝ) :
    mw ≤ seedWidth G Q q_allow u mw := le_max_right _ _

/-- The seed width never decreases when the column loads increase. -/
theorem seedWidth_mono (G Q G' Q' q_allow u mw : ℝ) (hG : G ≤ G')
    (hQ : Q ≤ Q') (hqt : 0 < u * q_allow) :
    seedWidth G Q q_allow u mw ≤ seedWidth G' Q' q_allow u mw := by
  unfold seedWidth
  refine max_le_max ?_ le_rfl
  refine Real.sqrt_le_sqrt ?_
  have hN : gamma_G * G + gamma_Q * Q ≤ gamma_G * G' + gamma_Q * Q' := by
    simp only [gamma_G, gamma_Q]; nlinarith
  exact div_le_div_of_nonneg_right hN hqt.le

/-- The base load is at most the target pressure times the squared seed
width (the seed is at least the load-only closed-form width). -/
theorem base_load_le (G Q q_allow u mw : ℝ) (hqt : 0 < u * q_allow) :
    gamma_G * G + gamma_Q * Q ≤
      u * q_allow * seedWidth G Q q_allow u mw ^ 2 := by
  set N := gamma_G * G + gamma_Q * Q with hN
  set s := seedWidth G Q q_allow u mw with hs
  have h1 : Real.sqrt (N / (u * q_allow)) ≤ s := le_max_left _ _
  rcases le_or_lt N 0 with hc | hc
  · have : 0 ≤ u * q_allow * s ^ 2 := by positivity
    linarith
  · have hA : 0 ≤ N / (u * q_allow) := by positivity
    have h2 : N / (u * q_allow) ≤ s ^ 2 := by
      calc N / (u * q_allow) = Real.sqrt (N / (u * q_allow)) ^ 2 :=
            (Real.sq_sqrt hA).symm
        _ ≤ s ^ 2 := by
            have := Real.sqrt_nonneg (N / (u * q_allow))
            nlinarith
    have h3 := (div_le_iff₀ hqt).mp h2
    nlinarith [h3]

/-- Key comparison: at equal loop offsets from their respective seeds,
the base-load pressure term for the larger loads dominates the one for
the smaller loads (the seed of the larger run cannot outrun its own
load). -/
theorem base_term_shift_le (G Q G' Q' q_allow u mw : ℝ)
    (hG : 0 ≤ G) (hQ : 0 ≤ Q) (hGG : G ≤ G') (hQQ : Q ≤ Q')
    (hqt : 0 < u * q_allow) (hmw : 0 < mw) (x : ℝ) (hx : 0 ≤ x) :
    (gamma_G * G + gamma_Q * Q) / (seedWidth G Q q_allow u mw + x) ^ 2 ≤
      (gamma_G * G' + gamma_Q * Q') /
        (seedWidth G' Q' q_allow u mw + x) ^ 2 := by
  set N := gamma_G * G + gamma_Q * Q with hN
  set N' := gamma_G * G' + gamma_Q * Q' with hN'
  set s := seedWidth G Q q_allow u mw with hs
  set s' := seedWidth G' Q' q_allow u mw with hs'
  have hNN : N ≤ N' := by simp only [hN, hN', gamma_G, gamma_Q]; nlinarith
  have hsmw : mw ≤ s := seedWidth_ge_min _ _ _ _ _
  have hsmw' : mw ≤ s' := seedWidth_ge_min _ _ _ _ _
  have hss : s ≤ s' := seedWidth_mono _ _ _ _ _ _ _ hGG hQQ hqt
  have hspos : 0 < s := lt_of_lt_of_le hmw hsmw
  have hspos' : 0 < s' := lt_of_lt_of_le hmw hsmw'
  have hd : 0 < (s + x) ^ 2 := by positivity
  have hd' : 0 < (s' + x) ^ 2 := by positivity
  rw [div_le_div_iff hd hd']
  rcases le_or_lt (Real.sqrt (N' / (u * q_allow))) mw with hc | hc
  · -- the minimum width governs both seeds
    have hseq : s' = mw := by
      simp only [hs', seedWidth, ← hN']
      exact max_eq_right hc
    have hseq0 : s = mw := by
      have hm : Real.sqrt (N / (u * q_allow)) ≤ mw := by
        refine le_trans (Real.sqrt_le_sqrt ?_) hc
        exact div_le_div_of_nonneg_right hNN hqt.le
      simp only [hs, seedWidth, ← hN]
      exact max_eq_right hm
    rw [hseq, hseq0]
    nlinarith [sq_nonneg (mw + x)]
  · -- the square-root seed governs the larger run
    have hseq' : s' = Real.sqrt (N' / (u * q_allow)) := by
      simp only [hs', seedWidth, ← hN']
      exact max_eq_left hc.le
    have hA' : 0 ≤ N' / (u * q_allow) :=
      (Real.sqrt_pos.mp (hmw.trans hc)).le
    have hNe' : N' = u * q_allow * s' ^ 2 := by
      rw [hseq', Real.sq_sqrt hA']
      field_simp
    have hNle : N ≤ u * q_allow * s ^ 2 := base_load_le _ _ _ _ _ hqt
    -- N * (s' + x)^2 ≤ qt * s^2 * (s' + x)^2 ≤ qt * s'^2 * (s + x)^2
    have e1 : s * (s' + x) ≤ s' * (s + x) := by nlinarith
    have e2 : 0 ≤ s * (s' + x) := by positivity
    have e3 : (s * (s' + x)) ^ 2 ≤ (s' * (s + x)) ^ 2 := by nlinarith
    have step1 : N * (s' + x) ^ 2 ≤ u * q_allow * s ^ 2 * (s' + x) ^ 2 :=
      mul_le_mul_of_nonneg_right hNle hd'.le
    have step2 : u * q_allow * s ^ 2 * (s' + x) ^ 2 ≤
        u * q_allow * s' ^ 2 * (s + x) ^ 2 := by nlinarith
    calc N * (s' + x) ^ 2 ≤ u * q_allow * s ^ 2 * (s' + x) ^ 2 := step1
      _ ≤ u * q_allow * s' ^ 2 * (s + x) ^ 2 := step2
      _ = N' * (s + x) ^ 2 := by rw [hNe']

/-- Pointwise domination along the two refinement grids: with
component-wise larger loads, the utilisation observed at the `k`-th loop
offset from the (larger) seed dominates the utilisation at the same
offset from the smaller seed. -/
theorem util_shift_le (G Q Sur_G Sur_Q G' Q' Sur_G' Sur_Q' q_allow u mw : ℝ)
    (isw : Bool) (hG : 0 ≤ G) (hQ : 0 ≤ Q)
    (hGG : G ≤ G') (hQQ : Q ≤ Q') (hSG : Sur_G ≤ Sur_G') (hSQ : Sur_Q ≤ Sur_Q')
    (hqA : 0 < q_allow) (hu : 0 < u) (hmw : 0 < mw) (x : ℝ) (hx : 0 ≤ x) :
    loop_util G Q Sur_G Sur_Q q_allow isw (seedWidth G Q q_allow u mw + x) ≤
      loop_util G' Q' Sur_G' Sur_Q' q_allow isw
        (seedWidth G' Q' q_allow u mw + x) := by
  have hqt : 0 < u * q_allow := mul_pos hu hqA
  have hs : 0 < seedWidth G Q q_allow u mw + x :=
    add_pos_of_pos_of_nonneg (lt_of_lt_of_le hmw (seedWidth_ge_min _ _ _ _ _)) hx
  have hs' : 0 < seedWidth G' Q' q_allow u mw + x :=
    add_pos_of_pos_of_nonneg (lt_of_lt_of_le hmw (seedWidth_ge_min _ _ _ _ _)) hx
  rw [loop_util_eq _ _ _ _ _ _ _ hs.ne', loop_util_eq _ _ _ _ _ _ _ hs'.ne']
  refine div_le_div_of_nonneg_right ?_ hqA.le
  have hbase := base_term_shift_le G Q G' Q' q_allow u mw hG hQ hGG hQQ hqt hmw
    x hx
  have hsw : (if isw then
      12 * (seedWidth G Q q_allow u mw + x) else (0:ℝ)) ≤
      (if isw then 12 * (seedWidth G' Q' q_allow u mw + x) else 0) := by
    cases isw
    · simp
    · simp only [if_true]
      have := seedWidth_mono G Q G' Q' q_allow u mw hGG hQQ hqt
      nlinarith
  have hGQ : (gamma_G * G + gamma_Q * Q) = G + Q := by
    norm_num [gamma_G, gamma_Q]
  have hGQ' : (gamma_G * G' + gamma_Q * Q') = G' + Q' := by
    norm_num [gamma_G, gamma_Q]
  rw [hGQ, hGQ'] at hbase
  have hsur : Sur_G + Sur_Q ≤ Sur_G' + Sur_Q' := add_le_add hSG hSQ
  exact add_le_add (add_le_add hbase hsw) hsur

/-- C8: for two inputs identical except that the loads {G, Q, surchargeDead,
surchargeLive} are component-wise larger in the second (in particular when
exactly one of them is larger), if `solve_pad` converges on both then the
converged continuous width for the second input is at least the converged
continuous width for the first: increasing any load never decreases the
converged width. -/
theorem claim_C8_load_monotonicity
    (G Q Sur_G Sur_Q G' Q' Sur_G' Sur_Q' q_allow u mw md r md' r' : ℝ)
    (isw : Bool) (fuel fuel' : ℕ) (res res' : SolveResult)
    (hG : 0 ≤ G) (hQ : 0 ≤ Q)
    (hGG : G ≤ G') (hQQ : Q ≤ Q') (hSG : Sur_G ≤ Sur_G') (hSQ : Sur_Q ≤ Sur_Q')
    (hqA : 0 < q_allow) (hu : 0 < u) (hmw : 0 < mw)
    (h : solve_pad G Q Sur_G Sur_Q q_allow u mw md r isw fuel = some res)
    (h' : solve_pad G' Q' Sur_G' Sur_Q' q_allow u mw md' r' isw fuel'
      = some res') :
    res.B_opt ≤ res'.B_opt := by
  rw [solve_pad_eq, Option.map_eq_some'] at h h'
  obtain ⟨B, hB, hfB⟩ := h
  obtain ⟨B', hB', hfB'⟩ := h'
  subst hfB
  subst hfB'
  show B ≤ B'
  obtain ⟨k, hk, hkle, hkmin⟩ := solveLoop_eq_some _ _ _ _ _ _ _ _ _ _ hB
  obtain ⟨k', hk', hk'le, _⟩ := solveLoop_eq_some _ _ _ _ _ _ _ _ _ _ hB'
  have hstep : (0:ℝ) ≤ B_REFINE_STEP := by norm_num [B_REFINE_STEP]
  have hseed := seedWidth_mono G Q G' Q' q_allow u mw hGG hQQ (mul_pos hu hqA)
  have hkk : k ≤ k' := by
    by_contra hlt
    push_neg at hlt
    have hx : (0:ℝ) ≤ (k' : ℝ) * B_REFINE_STEP := by positivity
    have hdom := util_shift_le G Q Sur_G Sur_Q G' Q' Sur_G' Sur_Q' q_allow u mw
      isw hG hQ hGG hQQ hSG hSQ hqA hu hmw ((k' : ℝ) * B_REFINE_STEP) hx
    have hle : loop_util G Q Sur_G Sur_Q q_allow isw
        (seedWidth G Q q_allow u mw + (k' : ℝ) * B_REFINE_STEP) ≤ u := by
      refine hdom.trans ?_
      rw [← hk']
      exact hk'le
    exact absurd hle (not_le.mpr (hkmin k' hlt))
  rw [hk, hk']
  have hks : (k : ℝ) * B_REFINE_STEP ≤ (k' : ℝ) * B_REFINE_STEP := by
    have : (k : ℝ) ≤ (k' : ℝ) := by exact_mod_cast hkk
    exact mul_le_mul_of_nonneg_right this hstep
  linarith

/-! ## Evaluation lemmas and small helpers -/

theorem solveLoop_zero (G Q Sur_G Sur_Q q_allow u : ℝ) (isw : Bool) (B : ℝ) :
    solveLoop G Q Sur_G Sur_Q q_allow u isw 0 B = none := rfl

theorem solveLoop_succ (G Q Sur_G Sur_Q q_allow u : ℝ) (isw : Bool) (n : ℕ)
    (B : ℝ) :
    solveLoop G Q Sur_G Sur_Q q_allow u isw (n + 1) B =
      if u < loop_util G Q Sur_G Sur_Q q_allow isw B then
        solveLoop G Q Sur_G Sur_Q q_allow u isw n (B + B_REFINE_STEP)
      else some B := rfl

/-- With zero column loads and zero surcharges the seed equals the
minimum width and the loop converges immediately (self-weight alone
cannot exceed the target at moderate widths). -/
theorem solve_pad_eval_zero_loads (mw md r : ℝ) (hmw0 : 0 < mw)
    (hmw : mw ≤ 10) :
    solve_pad 0 0 0 0 150 (9/10) mw md r true 1 =
      some { B_opt := mw, t := 0.5 * mw, N_ck_initial := 0, q_target := 135 } := by
  have hseed : seedWidth 0 0 150 (9/10) mw = mw := by
    unfold seedWidth
    have h0 : (gamma_G * 0 + gamma_Q * 0) / ((9/10 : ℝ) * 150) = 0 := by
      norm_num [gamma_G, gamma_Q]
    rw [h0, Real.sqrt_zero, max_eq_right hmw0.le]
  have hu : loop_util 0 0 0 0 150 true mw = 12 * mw / 150 := by
    rw [loop_util_eq _ _ _ _ _ _ _ hmw0.ne']
    norm_num
  rw [solve_pad_eq, hseed, solveLoop_succ, hu, if_neg (by linarith)]
  simp only [Option.map_some', Option.some.injEq, SolveResult.mk.injEq]
  norm_num [gamma_G, gamma_Q]

/-- A converging run with self-weight disabled: `G = 135`, seed
`√(135/135) = 1` is below the minimum width `3/2`, and the utilisation
at the minimum width is `135 / (3/2)² / 150 = 2/5 ≤ 9/10`. -/
theorem solve_pad_eval_no_self_weight (md r : ℝ) :
    solve_pad 135 0 0 0 150 (9/10) (3/2) md r false 1 =
      some { B_opt := 3/2, t := 0.5 * (3/2), N_ck_initial := 135,
             q_target := 135 } := by
  have hseed : seedWidth 135 0 150 (9/10) (3/2) = 3/2 := by
    unfold seedWidth
    have h0 : (gamma_G * 135 + gamma_Q * 0) / ((9/10 : ℝ) * 150) = 1 := by
      norm_num [gamma_G, gamma_Q]
    rw [h0, Real.sqrt_one]
    norm_num
  have hu : loop_util 135 0 0 0 150 false (3/2 : ℝ) = 2/5 := by
    rw [loop_util_eq _ _ _ _ _ _ _ (by norm_num : (3/2 : ℝ) ≠ 0)]
    norm_num
  rw [solve_pad_eq, hseed, solveLoop_succ, hu, if_neg (by norm_num)]
  simp only [Option.map_some', Option.some.injEq, SolveResult.mk.injEq]
  norm_num [gamma_G, gamma_Q]

/-- A converging run with self-weight disabled and zero loads: the loop
exits immediately at the minimum width. -/
theorem solve_pad_eval_zero_no_sw (md r : ℝ) :
    solve_pad 0 0 0 0 150 (9/10) (3/2) md r false 1 =
      some { B_opt := 3/2, t := 0.5 * (3/2), N_ck_initial := 0,
             q_target := 135 } := by
  have hseed : seedWidth 0 0 150 (9/10) (3/2) = 3/2 := by
    unfold seedWidth
    have h0 : (gamma_G * 0 + gamma_Q * 0) / ((9/10 : ℝ) * 150) = 0 := by
      norm_num [gamma_G, gamma_Q]
    rw [h0, Real.sqrt_zero]
    norm_num
  have hu : loop_util 0 0 0 0 150 false (3/2 : ℝ) = 0 := by
    rw [loop_util_eq _ _ _ _ _ _ _ (by norm_num : (3/2 : ℝ) ≠ 0)]
    norm_num
  rw [solve_pad_eq, hseed, solveLoop_succ, hu, if_neg (by norm_num)]
  simp only [Option.map_some', Option.some.injEq, SolveResult.mk.injEq]
  norm_num [gamma_G, gamma_Q]

/-- Rounding up with a positive increment never decreases the value. -/
theorem le_round_up (v r : ℝ) (hr : 0 < r) : v ≤ round_up v r := by
  unfold round_up
  have h1 : v / r ≤ (⌈v / r⌉ : ℝ) := Int.le_ceil _
  have h2 := mul_le_mul_of_nonneg_right h1 hr.le
  rwa [div_mul_cancel₀ _ hr.ne'] at h2

/-- The utilisation recomputed at the rounded geometry is the loop
utilisation function evaluated at the rounded width. -/
theorem postprocess_utilisation_eq (G Q Sur_G Sur_Q q_allow r : ℝ)
    (isw : Bool) (B : ℝ) :
    (postprocess G Q Sur_G Sur_Q q_allow r isw B).utilisation =
      loop_util G Q Sur_G Sur_Q q_allow isw (round_up B r) := rfl

/-- With self-weight disabled the utilisation is non-increasing in the
width (for nonnegative column loads): the only width-dependent term is
the base load spread over the bearing area. -/
theorem loop_util_anti_no_self_weight (G Q Sur_G Sur_Q q_allow : ℝ)
    (hGQ : 0 ≤ G + Q) (hqA : 0 < q_allow) (B B' : ℝ) (hB : 0 < B)
    (hBB : B ≤ B') :
    loop_util G Q Sur_G Sur_Q q_allow false B' ≤
      loop_util G Q Sur_G Sur_Q q_allow false B := by
  have hB' : 0 < B' := lt_of_lt_of_le hB hBB
  rw [loop_util_eq _ _ _ _ _ _ _ hB.ne', loop_util_eq _ _ _ _ _ _ _ hB'.ne']
  refine div_le_div_of_nonneg_right ?_ hqA.le
  have hsq : B ^ 2 ≤ B' ^ 2 := by nlinarith
  have : (G + Q) / B' ^ 2 ≤ (G + Q) / B ^ 2 :=
    div_le_div_of_nonneg_left hGQ (by positivity) hsq
  simp only [if_false, Bool.false_eq_true, ite_false]
  linarith

/-- The converged width returned by `solve_pad` is at least the minimum
width (the loop only ever increases the seed). -/
theorem solve_pad_B_opt_ge (G Q Sur_G Sur_Q q_allow u mw md r : ℝ)
    (isw : Bool) (fuel : ℕ) (res : SolveResult)
    (h : solve_pad G Q Sur_G Sur_Q q_allow u mw md r isw fuel = some res) :
    mw ≤ res.B_opt := by
  rw [solve_pad_eq, Option.map_eq_some'] at h
  obtain ⟨B, hB, hfB⟩ := h
  subst hfB
  show mw ≤ B
  obtain ⟨k, hk, -, -⟩ := solveLoop_eq_some _ _ _ _ _ _ _ _ _ _ hB
  have h1 : mw ≤ seedWidth G Q q_allow u mw := seedWidth_ge_min _ _ _ _ _
  have h2 : (0:ℝ) ≤ (k : ℝ) * B_REFINE_STEP := by
    have : (0:ℝ) ≤ B_REFINE_STEP := by norm_num [B_REFINE_STEP]
    positivity
  rw [hk]
  linarith

/-! ## Claims -/

/-- Auxiliary for C1: with `G = 90`, `q_allow = 25` and self-weight
enabled, the loop invariant `2 ≤ B` is preserved and the utilisation
stays above the target `9/10` forever (`util ≥ 12·B/25 ≥ 24/25`), so the
refinement loop never exits, whatever the fuel. -/
theorem solveLoop_heavy_none :
    ∀ (fuel : ℕ) (B : ℝ), 2 ≤ B →
      solveLoop 90 0 0 0 25 (9/10) true fuel B = none := by
  intro fuel
  induction fuel with
  | zero => intro B _; rfl
  | succ n ih =>
      intro B hB
      rw [solveLoop_succ]
      have hBpos : (0:ℝ) < B := by linarith
      have hutil : (9/10 : ℝ) < loop_util 90 0 0 0 25 true B := by
        rw [loop_util_eq _ _ _ _ _ _ _ hBpos.ne']
        rw [if_pos rfl]
        have h1 : (0:ℝ) < (90 + 0) / B ^ 2 := by positivity
        rw [lt_div_iff (by norm_num : (0:ℝ) < 25)]
        nlinarith
      rw [if_pos hutil]
      exact ih (B + B_REFINE_STEP) (by norm_num [B_REFINE_STEP]; linarith)

/-- C1 (refuted by the code — the claim matches the spec's stated intent,
the code omits the required bound): `solve_pad` has no upper bound on the
trial width and no `Infeasible` outcome.  At the valid input `G = 90`,
`Q = 0`, zero surcharges, `qAllow = 25`, `targetUtilisation = 0.9`,
`minWidth = 1.5`, self-weight included, the refinement loop never
terminates: for every amount of fuel, the embedded loop is still running
(`none`), because the self-weight term keeps the utilisation above the
target at every trial width. -/
theorem claim_C1_solve_pad_diverges (md r : ℝ) (fuel : ℕ) :
    solve_pad 90 0 0 0 25 (9/10) (3/2) md r true fuel = none := by
  rw [solve_pad_eq]
  have hseed : seedWidth 90 0 25 (9/10) (3/2) = 2 := by
    unfold seedWidth
    have h4 : (gamma_G * 90 + gamma_Q * 0) / ((9/10 : ℝ) * 25) = 4 := by
      norm_num [gamma_G, gamma_Q]
    rw [h4, show (4:ℝ) = 2 ^ 2 by norm_num,
      Real.sqrt_sq (by norm_num : (0:ℝ) ≤ 2)]
    norm_num
  rw [hseed, solveLoop_heavy_none fuel 2 le_rfl, Option.map_none']

/-- C2: whenever the solver converges, the continuous geometry satisfies
`t = B_opt / 2` exactly, and the rounded geometry satisfies
`t_round = B_final / 2` exactly (the depth is re-derived from the rounded
width, never rounded independently). -/
theorem claim_C2_geometry_invariant (G Q Sur_G Sur_Q q_allow u mw md r : ℝ)
    (isw : Bool) (fuel : ℕ) (res : SolveResult)
    (h : solve_pad G Q Sur_G Sur_Q q_allow u mw md r isw fuel = some res) :
    res.t = res.B_opt / 2 ∧
      (postprocess G Q Sur_G Sur_Q q_allow r isw res.B_opt).t_round =
        (postprocess G Q Sur_G Sur_Q q_allow r isw res.B_opt).B_final / 2 := by
  constructor
  · rw [solve_pad_eq, Option.map_eq_some'] at h
    obtain ⟨B, hB, hfB⟩ := h
    subst hfB
    show 0.5 * B = B / 2
    ring
  · show 0.5 * round_up res.B_opt r = round_up res.B_opt r / 2
    ring

/-- Witness for C2 at a concrete converging input. -/
theorem claim_C2_witness :
    ({ B_opt := 3/2, t := 0.5 * (3/2), N_ck_initial := 0, q_target := 135 } :
        SolveResult).t =
      ({ B_opt := 3/2, t := 0.5 * (3/2), N_ck_initial := 0, q_target := 135 } :
        SolveResult).B_opt / 2 ∧
      (postprocess 0 0 0 0 150 (1/5) true (3/2 : ℝ)).t_round =
        (postprocess 0 0 0 0 150 (1/5) true (3/2 : ℝ)).B_final / 2 :=
  claim_C2_geometry_invariant 0 0 0 0 150 (9/10) (3/2) (3/4) (1/5) true 1 _
    (solve_pad_eval_zero_loads (3/2) (3/4) (1/5) (by norm_num) (by norm_num))

/-- C4: whenever `solve_pad` terminates with a converged continuous
width, the utilisation at that width is at most the target utilisation
(the convergence bound holds with ε = 0). -/
theorem claim_C4_convergence_bound (G Q Sur_G Sur_Q q_allow u mw md r : ℝ)
    (isw : Bool) (fuel : ℕ) (res : SolveResult)
    (h : solve_pad G Q Sur_G Sur_Q q_allow u mw md r isw fuel = some res) :
    loop_util G Q Sur_G Sur_Q q_allow isw res.B_opt ≤ u := by
  rw [solve_pad_eq, Option.map_eq_some'] at h
  obtain ⟨B, hB, hfB⟩ := h
  subst hfB
  obtain ⟨k, -, hle, -⟩ := solveLoop_eq_some _ _ _ _ _ _ _ _ _ _ hB
  exact hle

/-- Witness for C4 at a concrete converging input. -/
theorem claim_C4_witness :
    loop_util 0 0 0 0 150 true
      (({ B_opt := 3/2, t := 0.5 * (3/2), N_ck_initial := 0, q_target := 135 } :
          SolveResult).B_opt) ≤ 9/10 :=
  claim_C4_convergence_bound 0 0 0 0 150 (9/10) (3/2) (3/4) (1/5) true 1 _
    (solve_pad_eval_zero_loads (3/2) (3/4) (1/5) (by norm_num) (by norm_num))

/-- C5: at any geometry with `B > 0` and `t = B/2`, the load accumulation
computes exactly `N_ck = γG·(G + selfWeight + surchargeDead·B²) +
γQ·(Q + surchargeLive·B²)` with `selfWeight = B²·(B/2)·γc` when enabled
(else 0), `γG = γQ = 1`, `γc = 24`, and `q_ed = N_ck / B²`; and the
rounded-geometry stage applies the same formulas at the rounded width. -/
theorem claim_C5_load_formulas (G Q Sur_G Sur_Q q_allow r : ℝ) (isw : Bool)
    (B : ℝ) (hB : 0 < B) :
    loop_N_ck G Q Sur_G Sur_Q isw B =
        gamma_G * (G + (if isw then B ^ 2 * (B / 2) * GAMMA_CONC else 0)
          + Sur_G * B ^ 2) + gamma_Q * (Q + Sur_Q * B ^ 2) ∧
      gamma_G = 1 ∧ gamma_Q = 1 ∧ GAMMA_CONC = 24 ∧
      loop_q_ed G Q Sur_G Sur_Q isw B =
        loop_N_ck G Q Sur_G Sur_Q isw B / B ^ 2 ∧
      (postprocess G Q Sur_G Sur_Q q_allow r isw B).N_ck =
        loop_N_ck G Q Sur_G Sur_Q isw (round_up B r) ∧
      (postprocess G Q Sur_G Sur_Q q_allow r isw B).q_ed =
        loop_N_ck G Q Sur_G Sur_Q isw (round_up B r) / (round_up B r) ^ 2 := by
  refine ⟨?_, by norm_num [gamma_G], by norm_num [gamma_Q],
    by norm_num [GAMMA_CONC], rfl, rfl, rfl⟩
  cases isw <;> simp only [loop_N_ck, if_true, if_false, Bool.false_eq_true,
    ite_true, ite_false] <;> ring

/-- Witness for C5 at a concrete positive width. -/
theorem claim_C5_witness :
    loop_N_ck 750 500 0 0 true 3 =
        gamma_G * (750 + (if true then (3:ℝ) ^ 2 * (3 / 2) * GAMMA_CONC else 0)
          + 0 * 3 ^ 2) + gamma_Q * (500 + 0 * 3 ^ 2) ∧
      gamma_G = 1 ∧ gamma_Q = 1 ∧ GAMMA_CONC = 24 ∧
      loop_q_ed 750 500 0 0 true 3 =
        loop_N_ck 750 500 0 0 true 3 / 3 ^ 2 ∧
      (postprocess 750 500 0 0 150 (1/5) true 3).N_ck =
        loop_N_ck 750 500 0 0 true (round_up 3 (1/5)) ∧
      (postprocess 750 500 0 0 150 (1/5) true 3).q_ed =
        loop_N_ck 750 500 0 0 true (round_up 3 (1/5)) / (round_up 3 (1/5)) ^ 2 :=
  claim_C5_load_formulas 750 500 0 0 150 (1/5) true 3 (by norm_num)

/-- C6: the final width obeys the rounding law
`B_final = ⌈B_opt / roundingIncrement⌉ · roundingIncrement`, and for a
positive increment the rounding is always upward: `B_final ≥ B_opt`. -/
theorem claim_C6_rounding_law (G Q Sur_G Sur_Q q_allow r B_opt : ℝ)
    (isw : Bool) (hr : 0 < r) :
    (postprocess G Q Sur_G Sur_Q q_allow r isw B_opt).B_final =
        ⌈B_opt / r⌉ * r ∧
      B_opt ≤ (postprocess G Q Sur_G Sur_Q q_allow r isw B_opt).B_final :=
  ⟨rfl, le_round_up B_opt r hr⟩

/-- Witness for C6 at a concrete input. -/
theorem claim_C6_witness :
    (postprocess 0 0 0 0 150 (1/5) true (3/2 : ℝ)).B_final =
        ⌈(3/2 : ℝ) / (1/5)⌉ * (1/5) ∧
      (3/2 : ℝ) ≤ (postprocess 0 0 0 0 150 (1/5) true (3/2 : ℝ)).B_final :=
  claim_C6_rounding_law 0 0 0 0 150 (1/5) (3/2) true (by norm_num)

/-- Witness for C8: the first run has zero loads, the second a larger
dead load; both converge (with self-weight disabled) and the converged
widths are ordered. -/
theorem claim_C8_witness :
    ({ B_opt := 3/2, t := 0.5 * (3/2), N_ck_initial := 0, q_target := 135 } :
        SolveResult).B_opt ≤
      ({ B_opt := 3/2, t := 0.5 * (3/2), N_ck_initial := 135,
         q_target := 135 } : SolveResult).B_opt :=
  claim_C8_load_monotonicity 0 0 0 0 135 0 0 0 150 (9/10) (3/2) (3/4) (1/5)
    (3/4) (1/5) false 1 1 _ _ le_rfl le_rfl (by norm_num) le_rfl le_rfl
    le_rfl (by norm_num) (by norm_num) (by norm_num)
    (solve_pad_eval_zero_no_sw (3/4) (1/5))
    (solve_pad_eval_no_self_weight (3/4) (1/5))

/-- C3 (counterexample): with self-weight enabled the utilisation is not
non-increasing in the width.  At `G = Q = 0`, surcharges `0`,
`qAllow = 150`, target `0.9`, `minWidth = 0.5`, increment `0.2`, the
solver converges at `B_opt = 0.5` with utilisation `1/25 = 0.04`; the
rounded width is `B_final = 0.6` and the utilisation recomputed there
is `6/125 = 0.048 > 0.04`: the rounded utilisation exceeds the converged
utilisation. -/
theorem claim_C3_counterexample :
    (solve_pad 0 0 0 0 150 (9/10) (1/2) (3/4) (1/5) true 1 =
        some { B_opt := 1/2, t := 0.5 * (1/2), N_ck_initial := 0,
               q_target := 135 }) ∧
      (postprocess 0 0 0 0 150 (1/5) true (1/2 : ℝ)).B_final = 3/5 ∧
      loop_util 0 0 0 0 150 true (1/2 : ℝ) = 1/25 ∧
      (postprocess 0 0 0 0 150 (1/5) true (1/2 : ℝ)).utilisation = 6/125 ∧
      ¬ ((postprocess 0 0 0 0 150 (1/5) true (1/2 : ℝ)).utilisation ≤
          loop_util 0 0 0 0 150 true (1/2 : ℝ)) := by
  have hBf : round_up (1/2 : ℝ) (1/5) = 3/5 := by
    unfold round_up
    rw [show (1/2 : ℝ) / (1/5) = 5/2 by norm_num]
    rw [show ⌈(5/2 : ℝ)⌉ = 3 by
      rw [Int.ceil_eq_iff] <;> norm_num]
    norm_num
  have hu1 : loop_util 0 0 0 0 150 true (1/2 : ℝ) = 1/25 := by
    rw [loop_util_eq _ _ _ _ _ _ _ (by norm_num : (1/2 : ℝ) ≠ 0)]
    norm_num
  have hu2 : (postprocess 0 0 0 0 150 (1/5) true (1/2 : ℝ)).utilisation
      = 6/125 := by
    rw [postprocess_utilisation_eq, hBf,
      loop_util_eq _ _ _ _ _ _ _ (by norm_num : (3/5 : ℝ) ≠ 0)]
    norm_num
  refine ⟨solve_pad_eval_zero_loads (1/2) (3/4) (1/5) (by norm_num)
    (by norm_num), ?_, hu1, hu2, ?_⟩
  · show round_up (1/2 : ℝ) (1/5) = 3/5
    exact hBf
  · rw [hu1, hu2]
    norm_num

/-- C3 (amended): the rounded width is at least the continuous converged
width, and when self-weight is *disabled* the utilisation recomputed at
the rounded geometry is at most the converged utilisation.  (With
self-weight enabled the utilisation gains the increasing term `12·B` and
the rounded utilisation can exceed the converged one, as the
counterexample shows.) -/
theorem claim_C3_rounded_util_no_self_weight
    (G Q Sur_G Sur_Q q_allow u mw md r : ℝ) (fuel : ℕ) (res : SolveResult)
    (hGQ : 0 ≤ G + Q) (hqA : 0 < q_allow) (hmw : 0 < mw) (hr : 0 < r)
    (h : solve_pad G Q Sur_G Sur_Q q_allow u mw md r false fuel = some res) :
    res.B_opt ≤ (postprocess G Q Sur_G Sur_Q q_allow r false res.B_opt).B_final
    ∧ (postprocess G Q Sur_G Sur_Q q_allow r false res.B_opt).utilisation ≤
        loop_util G Q Sur_G Sur_Q q_allow false res.B_opt := by
  have hBpos : 0 < res.B_opt :=
    lt_of_lt_of_le hmw (solve_pad_B_opt_ge _ _ _ _ _ _ _ _ _ _ _ _ h)
  have hup : res.B_opt ≤ round_up res.B_opt r := le_round_up _ _ hr
  refine ⟨hup, ?_⟩
  rw [postprocess_utilisation_eq]
  exact loop_util_anti_no_self_weight G Q Sur_G Sur_Q q_allow hGQ hqA _ _
    hBpos hup

/-- Witness for the amended C3 at a concrete self-weight-free input. -/
theorem claim_C3_witness :
    (({ B_opt := 3/2, t := 0.5 * (3/2), N_ck_initial := 135,
        q_target := 135 } : SolveResult).B_opt ≤
      (postprocess 135 0 0 0 150 (1/5) false (3/2 : ℝ)).B_final) ∧
      (postprocess 135 0 0 0 150 (1/5) false (3/2 : ℝ)).utilisation ≤
        loop_util 135 0 0 0 150 false (3/2 : ℝ) :=
  claim_C3_rounded_util_no_self_weight 135 0 0 0 150 (9/10) (3/2) (3/4) (1/5)
    1 _ (by norm_num) (by norm_num) (by norm_num) (by norm_num)
    (solve_pad_eval_no_self_weight (3/4) (1/5))

/-- C7 (counterexample): `solve_pad` performs no precondition check.
With the invalid constraint `roundingIncrement = 0 ≤ 0` (and otherwise
valid inputs) the iterative solving loop is entered and returns a
converged geometry instead of an `InvalidConstraint` rejection. -/
theorem claim_C7_counterexample :
    solve_pad 0 0 0 0 150 (9/10) (3/2) (3/4) 0 true 1 =
      some { B_opt := 3/2, t := 0.5 * (3/2), N_ck_initial := 0,
             q_target := 135 } :=
  solve_pad_eval_zero_loads (3/2) (3/4) 0 (by norm_num) (by norm_num)

/-- C7 (amended): `solve_pad` validates nothing before solving: an input
whose rounding increment is ≤ 0 is not rejected — the parameter is
ignored and the solver behaves exactly as with a valid increment, with
no `InvalidConstraint` outcome anywhere in its result type.  (Invalid
values are excluded only by the UI input widgets.) -/
theorem claim_C7_no_precondition_check
    (G Q Sur_G Sur_Q q_allow u mw md r : ℝ) (isw : Bool) (fuel : ℕ)
    (hr : r ≤ 0) :
    solve_pad G Q Sur_G Sur_Q q_allow u mw md r isw fuel =
      solve_pad G Q Sur_G Sur_Q q_allow u mw md (1/5) isw fuel := rfl

/-- Witness for the amended C7 with the invalid increment `0`. -/
theorem claim_C7_witness :
    solve_pad 0 0 0 0 150 (9/10) (3/2) (3/4) 0 true 1 =
      solve_pad 0 0 0 0 150 (9/10) (3/2) (3/4) (1/5) true 1 :=
  claim_C7_no_precondition_check 0 0 0 0 150 (9/10) (3/2) (3/4) 0 true 1
    le_rfl

/-- C9: the `min_depth` and `rounding` parameters of `solve_pad` have no
influence on its result: two calls differing only in those parameters
return identical outputs, and no minimum-depth constraint is enforced in
the continuous solve. -/
theorem claim_C9_unused_parameters
    (G Q Sur_G Sur_Q q_allow u mw md r md' r' : ℝ) (isw : Bool) (fuel : ℕ) :
    solve_pad G Q Sur_G Sur_Q q_allow u mw md r isw fuel =
      solve_pad G Q Sur_G Sur_Q q_allow u mw md' r' isw fuel := rfl

/-- C10: the sizing pipeline is a deterministic pure function of its
arguments: two calls with identical load case and constraints yield
identical outcomes (width, depth, design load, bearing pressure,
utilisation and volume). -/
theorem claim_C10_deterministic
    (G1 Q1 SG1 SQ1 qA1 u1 mw1 md1 r1 : ℝ) (isw1 : Bool) (fuel1 : ℕ)
    (G2 Q2 SG2 SQ2 qA2 u2 mw2 md2 r2 : ℝ) (isw2 : Bool) (fuel2 : ℕ)
    (hG : G1 = G2) (hQ : Q1 = Q2) (hSG : SG1 = SG2) (hSQ : SQ1 = SQ2)
    (hqA : qA1 = qA2) (hu : u1 = u2) (hmw : mw1 = mw2) (hmd : md1 = md2)
    (hr : r1 = r2) (hisw : isw1 = isw2) (hfuel : fuel1 = fuel2) :
    size G1 Q1 SG1 SQ1 qA1 u1 mw1 md1 r1 isw1 fuel1 =
      size G2 Q2 SG2 SQ2 qA2 u2 mw2 md2 r2 isw2 fuel2 := by
  subst hG hQ hSG hSQ hqA hu hmw hmd hr hisw hfuel
  rfl

/-- Witness for C10 at a concrete input. -/
theorem claim_C10_witness :
    size 750 500 0 0 150 (9/10) (3/2) (3/4) (1/5) true 200 =
      size 750 500 0 0 150 (9/10) (3/2) (3/4) (1/5) true 200 :=
  claim_C10_deterministic 750 500 0 0 150 (9/10) (3/2) (3/4) (1/5) true 200
    750 500 0 0 150 (9/10) (3/2) (3/4) (1/5) true 200
    rfl rfl rfl rfl rfl rfl rfl rfl rfl rfl rfl

end PadFoundation
